import Mathlib

/-!
Verification development for the mobile-desktop-icon-organizer pipeline
(`main.py`, `extract_launcher_data.py`): a shallow embedding of the
tag-cache-and-clustering pipeline, and proofs of its specification claims.

Python dicts are modelled as insertion-ordered association lists
(`List (String × String)`), remote services as oracle functions passed in
as parameters, and the cache file as an explicit file-state value threaded
through the computation.
-/

namespace IconOrganizer

/-! ### Python `dict` model (insertion-ordered association list) -/

/-- `d[k]` lookup (`None` when absent): first binding wins, as in a Python
dict, whose keys are unique. -/
def dictGet : List (String × String) → String → Option String
  | [], _ => none
  | (k, v) :: rest, key => if k = key then some v else dictGet rest key

/-- `d[k] = v` assignment on a Python dict: updates the value in place when
the key is present (keeping its position), appends a new binding otherwise. -/
def dictInsert : List (String × String) → String → String → List (String × String)
  | [], key, val => [(key, val)]
  | (k, v) :: rest, key, val =>
      if k = key then (k, val) :: rest else (k, v) :: dictInsert rest key val

/-- The in-memory tag cache: package identifier → tag string. -/
abbrev TagCache := List (String × String)

/-! ### JSON serialization model

`save_cache` writes the dict with `json.dump(cache, f, indent=4,
ensure_ascii=False)`; `load_cache` reads it back with `json.loads`.  We model
the exact textual format Python produces for a `dict[str, str]` and a parser
for that object form (string keys, string values, arbitrary whitespace
between tokens, as accepted by `json.loads`).  Other JSON shapes are outside
the model: the cache file is only ever written by `save_cache`. -/

/-- Lowercase hex digit, as produced by Python's `json` `\uXXXX` escapes. -/
def hexDig (n : Nat) : Char :=
  if n < 10 then Char.ofNat (48 + n) else Char.ofNat (87 + n)

/-- Value of a hex digit accepted by `json.loads` (both cases). -/
def hexVal (c : Char) : Option Nat :=
  if 48 ≤ c.toNat ∧ c.toNat ≤ 57 then some (c.toNat - 48)
  else if 97 ≤ c.toNat ∧ c.toNat ≤ 102 then some (c.toNat - 87)
  else if 65 ≤ c.toNat ∧ c.toNat ≤ 70 then some (c.toNat - 55)
  else none

/-- Escaping of one character inside a JSON string literal, exactly as
Python's `json.dump` with `ensure_ascii=False` does it: `"` and `\` get a
backslash, the five short control escapes are used where they exist, the
remaining control characters become `\u00xx`, and everything else
(including non-ASCII) is written raw. -/
def escChar (c : Char) : List Char :=
  if c = '"' then ['\\', '"']
  else if c = '\\' then ['\\', '\\']
  else if c = '\n' then ['\\', 'n']
  else if c = '\t' then ['\\', 't']
  else if c = '\r' then ['\\', 'r']
  else if c = Char.ofNat 8 then ['\\', 'b']
  else if c = Char.ofNat 12 then ['\\', 'f']
  else if c.toNat < 32 then
    ['\\', 'u', '0', '0', hexDig (c.toNat / 16), hexDig (c.toNat % 16)]
  else [c]

/-- The escaped body of a JSON string literal. -/
def encBody : List Char → List Char
  | [] => []
  | c :: cs => escChar c ++ encBody cs

/-- A JSON string literal (quotes included) for `s`. -/
def encStr (s : List Char) : List Char :=
  '"' :: encBody s ++ ['"']

/-- The body of `json.dump(d, indent=4)` between the braces: each entry on
its own line indented four spaces, entries separated by `",\n"`. -/
def encEntries : List (String × String) → List Char
  | [] => []
  | [(k, v)] => [' ', ' ', ' ', ' '] ++ encStr k.data ++ [':', ' '] ++ encStr v.data
  | (k, v) :: rest =>
      [' ', ' ', ' ', ' '] ++ encStr k.data ++ [':', ' '] ++ encStr v.data
        ++ [',', '\n'] ++ encEntries rest

/-- `json.dump(cache_data, f, indent=4, ensure_ascii=False)` for a
`dict[str, str]`: `{}` for the empty dict, otherwise the entries one per
line between the braces. -/
def json_dump (d : List (String × String)) : String :=
  if d = [] then String.mk ['\x7b', '\x7d']
  else String.mk ('\x7b' :: '\n' :: (encEntries d ++ ['\n', '\x7d']))

/-- JSON whitespace accepted between tokens by `json.loads`. -/
def isJsonWs (c : Char) : Bool :=
  c = ' ' ∨ c = '\t' ∨ c = '\n' ∨ c = '\r'

/-- Skip insignificant whitespace. -/
def skipWs (cs : List Char) : List Char := cs.dropWhile isJsonWs

/-- The character a JSON short escape `\e` denotes (`\uXXXX` handled
separately); `none` for an invalid escape, which is a parse error. -/
def unescape (e : Char) : Option Char :=
  if e = '"' then some '"'
  else if e = '\\' then some '\\'
  else if e = '/' then some '/'
  else if e = 'n' then some '\n'
  else if e = 't' then some '\t'
  else if e = 'r' then some '\r'
  else if e = 'b' then some (Char.ofNat 8)
  else if e = 'f' then some (Char.ofNat 12)
  else none

/-- Parse the body of a JSON string literal (the opening quote already
consumed), returning the decoded characters and the remaining input.
`json.loads` operates in strict mode: a raw control character (< 0x20)
inside a string is a parse error. -/
def parseStrBody : List Char → Option (List Char × List Char)
  | [] => none
  | c :: rest =>
      if c = '"' then some ([], rest)
      else if c = '\\' then
        match rest with
        | 'u' :: h1 :: h2 :: h3 :: h4 :: rest2 =>
            match hexVal h1, hexVal h2, hexVal h3, hexVal h4 with
            | some a, some b, some cc, some d =>
                let n := 4096 * a + 256 * b + 16 * cc + d
                if n < 55296 then
                  (parseStrBody rest2).map (fun p => (Char.ofNat n :: p.1, p.2))
                else none
            | _, _, _, _ => none
        | e :: rest2 =>
            match unescape e with
            | some d => (parseStrBody rest2).map (fun p => (d :: p.1, p.2))
            | none => none
        | [] => none
      else if c.toNat < 32 then none
      else (parseStrBody rest).map (fun p => (c :: p.1, p.2))

/-- Parse one `"key": "value"` member, returning it and the input after the
value's closing quote. -/
def parseMember (cs : List Char) : Option ((String × String) × List Char) :=
  match cs with
  | '"' :: rest =>
      match parseStrBody rest with
      | some (k, rest1) =>
          match skipWs rest1 with
          | ':' :: rest2 =>
              match skipWs rest2 with
              | '"' :: rest3 =>
                  match parseStrBody rest3 with
                  | some (v, rest4) => some ((String.mk k, String.mk v), rest4)
                  | none => none
              | _ => none
          | _ => none
      | none => none
  | _ => none

/-- Parse a non-empty comma-separated member list up to and including the
closing brace.  `fuel` bounds the recursion (one unit per member); callers
pass the input length, which always suffices. -/
def parseMembers : Nat → List Char → Option (List (String × String) × List Char)
  | 0, _ => none
  | fuel + 1, cs =>
      match parseMember cs with
      | none => none
      | some (kv, rest) =>
          match skipWs rest with
          | ',' :: rest2 =>
              (parseMembers fuel (skipWs rest2)).map (fun p => (kv :: p.1, p.2))
          | '\x7d' :: rest2 => some ([kv], rest2)
          | _ => none

/-- `json.loads` restricted to the object-of-strings shape the cache file
holds.  Returns the parsed members assembled into a dict the way Python
builds one while parsing (repeated keys overwrite in place); `none` models
`json.JSONDecodeError`. -/
def json_loads (s : String) : Option (List (String × String)) :=
  match skipWs s.data with
  | '\x7b' :: rest =>
      match skipWs rest with
      | '\x7d' :: tail => if skipWs tail = [] then some [] else none
      | '"' :: _ =>
          match parseMembers (rest.length + 1) (skipWs rest) with
          | some (l, tail) =>
              if skipWs tail = [] then
                some (l.foldl (fun acc kv => dictInsert acc kv.1 kv.2) [])
              else none
          | none => none
      | _ => none
  | _ => none

/-! ### Cache file model (`load_cache` / `save_cache`) -/

/-- Observable states of the cache file as `load_cache` can encounter them:
absent (`os.path.exists` false), unreadable (`open`/`read` raises `IOError`),
or present with some textual content. -/
inductive CacheFile where
  | missing
  | readError
  | present (content : String)
deriving DecidableEq, Repr

/-- `load_cache()`: returns `{}` when the file is missing; reads the content
and returns `{}` when it is empty; otherwise `json.loads` it; an `IOError`
or `json.JSONDecodeError` is caught, a warning printed, and `{}` returned.
Total — no path raises to the caller. -/
def load_cache (file : CacheFile) : TagCache :=
  match file with
  | .missing => []
  | .readError => []
  | .present content =>
      if content = "" then []
      else
        match json_loads content with
        | some d => d
        | none => []

/-- `save_cache(cache_data)`: writes `json.dump(cache_data, f, indent=4,
ensure_ascii=False)` to the cache file; an `IOError` is caught and logged
inside `save_cache`, leaving the file as it was.  `writeOk` is the oracle
for whether the write raises.  Total — never raises to the caller. -/
def save_cache (writeOk : Bool) (cache_data : TagCache) (file : CacheFile) : CacheFile :=
  if writeOk then .present (json_dump cache_data) else file

/-! ### Extractor (`extract_apps_from_db`) -/

/-- One application as extracted from the launcher database. -/
structure AppRec where
  name : String
  package : String
deriving DecidableEq, Repr

/-- The marker the extraction regex anchors on. -/
def componentMarker : List Char := "component=".data

/-- `re.search(r'component=([^/]+)/', s)` at one candidate start position:
the literal marker, then a maximal non-empty run of non-`/` characters
(greedy `[^/]+`), then a `/`.  Returns the captured group. -/
def tryComponentAt (cs : List Char) : Option (List Char) :=
  if componentMarker.isPrefixOf cs then
    let after := cs.drop componentMarker.length
    let t := after.takeWhile (fun c => c ≠ '/')
    if t ≠ [] ∧ t.length < after.length then some t else none
  else none

/-- `re.search` semantics for the pattern: try every start position left to
right and return the first successful match's capture. -/
def findComponent : List Char → Option (List Char)
  | [] => none
  | c :: rest =>
      match tryComponentAt (c :: rest) with
      | some t => some t
      | none => findComponent rest

/-- Whether `'component=' in intent_str`. -/
def containsComponent (s : String) : Bool :=
  (s.data.tails.filter (fun t => componentMarker.isPrefixOf t)) ≠ []

/-- The per-row body of the extraction loop in `extract_apps_from_db`:
rows whose `intent` is NULL or empty, or lacks `component=`, are skipped;
otherwise the regex is searched and a match contributes
`{'name': title, 'package': group(1)}`. -/
def extractRow (row : String × Option String) : Option AppRec :=
  match row.2 with
  | none => none
  | some intent_str =>
      if intent_str = "" then none
      else if ¬ containsComponent intent_str then none
      else
        match findComponent intent_str.data with
        | some t => some ⟨row.1, String.mk t⟩
        | none => none

/-- Database-level failures `extract_apps_from_db` can raise. -/
inductive DbError where
  | fileNotFound
  | sqliteError (msg : String)
deriving DecidableEq, Repr

/-- Observable states of the launcher database: file absent, a query
failure, or the `favorites` rows `(title, intent)` the query returns. -/
inductive DbState where
  | missing
  | queryError (msg : String)
  | table (rows : List (String × Option String))
deriving Repr

/-- `extract_apps_from_db(db_file)`: raises `FileNotFoundError` when the
file does not exist, re-raises query failures as `sqlite3.Error`, and
otherwise filters the `(title, intent)` rows through the regex. -/
def extract_apps_from_db (db : DbState) : Except DbError (List AppRec) :=
  match db with
  | .missing => .error .fileNotFound
  | .queryError m => .error (.sqliteError m)
  | .table rows => .ok (rows.filterMap extractRow)

/-! ### Classifier and Embedder clients -/

/-- The "insufficient information" sentinel tag. -/
def sentinel : String := "信息不足"

/-- `setup_gemini()`: loads `GOOGLE_API_KEY` from the environment and raises
`ValueError` when it is unset or empty (`if not api_key`). -/
def setup_gemini (apiKey : Option String) : Except String Unit :=
  match apiKey with
  | none => .error "missing GOOGLE_API_KEY"
  | some k => if k = "" then .error "missing GOOGLE_API_KEY" else .ok ()

/-- Whitespace as stripped by Python's `str.strip()` (the ASCII part of
Python's whitespace set; Unicode spaces are outside the model). -/
def isPyWs (c : Char) : Bool :=
  c = ' ' ∨ c = '\t' ∨ c = '\n' ∨ c = '\r' ∨ c = '\x0b' ∨ c = '\x0c'

/-- Python `text.strip()`: remove leading and trailing whitespace. -/
def pyStrip (s : String) : String :=
  String.mk (((s.data.dropWhile isPyWs).reverse.dropWhile isPyWs).reverse)

/-- `get_app_description(client, app_name, package_name)`: the remote
`generate_content` call is the oracle `classify`; `.error` models the call
raising.  A raised exception is caught and mapped to the sentinel; a reply
whose text strips to empty also becomes the sentinel; otherwise the
stripped text is the tag string.  Total — never raises to the caller. -/
def get_app_description (classify : String → String → Except String String)
    (app_name package_name : String) : String :=
  match classify app_name package_name with
  | .error _ => sentinel
  | .ok text =>
      let tags := pyStrip text
      if tags = "" then sentinel else tags

/-- `get_embedding(client, text)`: the remote `embed_content` call is the
oracle `embed` over an abstract coordinate type `α`; a raised exception is
caught and `None` returned. -/
def get_embedding {α : Type} (embed : String → Except String (List α))
    (text : String) : Option (List α) :=
  match embed text with
  | .error _ => none
  | .ok v => some v

/-! ### Orchestrator (`main`)

The per-application loop threads the in-memory cache, the cache-file state,
the survivors (`processed_apps`, `app_vectors`) and — mirroring the log
lines the loop prints — instrumentation logs: one entry per classifier
invocation (`tagsLog` records every resolved tag, `classifiedLog` every
actual remote classification call, `embedLog` every embedder call), each
stamped with the loop index of the application that caused it. -/

structure LoopState (α : Type) where
  cache : TagCache
  file : CacheFile
  processed : List (AppRec × String)
  vectors : List (List α)
  tagsLog : List (Nat × String × String)
  classifiedLog : List (Nat × String)
  embedLog : List (Nat × String)
deriving Repr

/-- Steps 3 of the loop body: after the sentinel check passed, call the
embedder; `if vector:` keeps the application only when a vector came back
and it is non-empty (Python truthiness on a list). -/
def embedStep {α : Type} (embed : String → Except String (List α))
    (i : Nat) (a : AppRec) (tags : String) (s : LoopState α) : LoopState α :=
  let s := { s with embedLog := s.embedLog ++ [(i, tags)] }
  match get_embedding embed tags with
  | none => s
  | some v =>
      if v.isEmpty then s
      else { s with processed := s.processed ++ [(a, tags)],
                    vectors := s.vectors ++ [v] }

/-- Step 2 onward of the loop body once `tags` is resolved: record the tag,
skip the application entirely when it equals the sentinel, otherwise embed. -/
def afterTags {α : Type} (embed : String → Except String (List α))
    (i : Nat) (a : AppRec) (tags : String) (s : LoopState α) : LoopState α :=
  let s := { s with tagsLog := s.tagsLog ++ [(i, a.package, tags)] }
  if tags = sentinel then s
  else embedStep embed i a tags s

/-- One iteration of `for app in apps_to_process`: check the cache; on a
hit use the cached tag as-is; on a miss call `get_app_description`, store
the result in the in-memory cache and immediately `save_cache` (whose
write may fail, caught inside). -/
def processApp {α : Type} (classify : String → String → Except String String)
    (embed : String → Except String (List α)) (writeOk : Bool)
    (i : Nat) (a : AppRec) (s : LoopState α) : LoopState α :=
  match dictGet s.cache a.package with
  | some tags => afterTags embed i a tags s
  | none =>
      let tags := get_app_description classify a.name a.package
      let cache := dictInsert s.cache a.package tags
      let file := save_cache writeOk cache s.file
      afterTags embed i a tags
        { s with cache := cache, file := file,
                 classifiedLog := s.classifiedLog ++ [(i, a.package)] }

/-- The whole `for` loop, `i` the index of the next application. -/
def mainLoop {α : Type} (classify : String → String → Except String String)
    (embed : String → Except String (List α)) (writeOk : Nat → Bool) :
    List AppRec → Nat → LoopState α → LoopState α
  | [], _, s => s
  | a :: rest, i, s =>
      mainLoop classify embed writeOk rest (i + 1)
        (processApp classify embed (writeOk i) i a s)

/-- The loop state before the first iteration: cache freshly loaded from
the file, everything else empty. -/
def initState (α : Type) (file : CacheFile) : LoopState α :=
  ⟨load_cache file, file, [], [], [], [], []⟩

/-- Display name of a cluster label: `-1` is the outlier bucket, other
labels become `分组 N`. -/
def groupName (cid : Int) : String :=
  if cid = -1 then "独立应用/离群点" else "分组 " ++ toString cid

/-- `final_groups` update for one application: create the group's empty
list when absent, then append the display name. -/
def addToGroup (gs : List (String × List String)) (g n : String) :
    List (String × List String) :=
  match gs with
  | [] => [(g, [n])]
  | (k, v) :: rest =>
      if k = g then (k, v ++ [n]) :: rest else (k, v) :: addToGroup rest g n

/-- Building `final_groups` from the cluster labels and `processed_apps`:
`for i, app_info in enumerate(processed_apps)`, bucketed by
`clusters[i]` (DBSCAN returns one label per input row). -/
def build_groups (clusters : List Int) (processed : List (AppRec × String)) :
    List (String × List String) :=
  (processed.enum).foldl
    (fun gs p => addToGroup gs (groupName (clusters.getD p.1 (-1))) p.2.1.name) []

/-- How a run of `main()` ends.  Every constructor corresponds to a
`return` (or the final print): no path raises out of `main`. -/
inductive MainResult (α : Type) where
  | configError
  | dataSourceError (e : DbError)
  | noApps
  | nothingToCluster (s : LoopState α)
  | grouped (groups : List (String × List String)) (s : LoopState α)
deriving Repr

/-- Steps after extraction succeeded with a non-empty application list:
run the loop; when no vectors survived, report the nothing-to-cluster
condition and stop — the Cluster Engine (`cluster`, modelling
`DBSCAN(...).fit_predict`) is only invoked on the non-empty branch. -/
def runPipeline {α : Type} (classify : String → String → Except String String)
    (embed : String → Except String (List α)) (writeOk : Nat → Bool)
    (cluster : List (List α) → List Int) (apps : List AppRec)
    (file : CacheFile) : MainResult α :=
  let fin := mainLoop classify embed writeOk apps 0 (initState α file)
  if fin.vectors.isEmpty then .nothingToCluster fin
  else .grouped (build_groups (cluster fin.vectors) fin.processed) fin

/-- `main()`: configure the client (a `ValueError` is caught, printed, and
the function returns), extract the applications (`FileNotFoundError` and
`sqlite3.Error` likewise caught and returned from), stop when the list is
empty, and otherwise run the per-application pipeline. -/
def main {α : Type} (apiKey : Option String) (db : DbState)
    (classify : String → String → Except String String)
    (embed : String → Except String (List α)) (writeOk : Nat → Bool)
    (cluster : List (List α) → List Int) (file : CacheFile) : MainResult α :=
  match setup_gemini apiKey with
  | .error _ => .configError
  | .ok _ =>
      match extract_apps_from_db db with
      | .error e => .dataSourceError e
      | .ok apps =>
          if apps.isEmpty then .noApps
          else runPipeline classify embed writeOk cluster apps file

/-- The `if __name__ == "__main__": main()` entry point.  `main` returns
normally on every path (all fatal conditions are caught and produce a plain
`return`; there is no `sys.exit` call anywhere), and a Python process whose
top level completes without an uncaught exception exits with status 0 — so
the exit status is 0 for every input. -/
def run_process {α : Type} (apiKey : Option String) (db : DbState)
    (classify : String → String → Except String String)
    (embed : String → Except String (List α)) (writeOk : Nat → Bool)
    (cluster : List (List α) → List Int) (file : CacheFile) :
    Nat × MainResult α :=
  (0, main apiKey db classify embed writeOk cluster file)

/-! ### Step lemmas for the loop body -/

/-- `embedStep` only touches the embed log and the survivor lists. -/
theorem embedStep_preserves {α : Type} (embed : String → Except String (List α))
    (i : Nat) (a : AppRec) (t : String) (s : LoopState α) :
    (embedStep embed i a t s).cache = s.cache ∧
    (embedStep embed i a t s).file = s.file ∧
    (embedStep embed i a t s).tagsLog = s.tagsLog ∧
    (embedStep embed i a t s).classifiedLog = s.classifiedLog := by
  unfold embedStep
  cases get_embedding embed t with
  | none => exact ⟨rfl, rfl, rfl, rfl⟩
  | some v =>
      by_cases h : v.isEmpty <;> simp only [h] <;> exact ⟨rfl, rfl, rfl, rfl⟩

/-- `afterTags` only touches the logs and the survivor lists. -/
theorem afterTags_preserves {α : Type} (embed : String → Except String (List α))
    (i : Nat) (a : AppRec) (t : String) (s : LoopState α) :
    (afterTags embed i a t s).cache = s.cache ∧
    (afterTags embed i a t s).file = s.file ∧
    (afterTags embed i a t s).classifiedLog = s.classifiedLog := by
  unfold afterTags
  by_cases h : t = sentinel
  · simp only [h, if_pos rfl]
    exact ⟨rfl, rfl, rfl⟩
  · simp only [if_neg h]
    have := embedStep_preserves embed i a t
      { s with tagsLog := s.tagsLog ++ [(i, a.package, t)] }
    exact ⟨this.1, this.2.1, this.2.2.2⟩

/-- On a sentinel tag `afterTags` records the tag and does nothing else:
no embedder call, no vector, no surviving application. -/
theorem afterTags_sentinel {α : Type} (embed : String → Except String (List α))
    (i : Nat) (a : AppRec) (s : LoopState α) :
    afterTags embed i a sentinel s
      = { s with tagsLog := s.tagsLog ++ [(i, a.package, sentinel)] } := by
  unfold afterTags
  simp

/-- Lookup after insert finds exactly the inserted tag. -/
theorem dictGet_insert_self (d : List (String × String)) (k v : String) :
    dictGet (dictInsert d k v) k = some v := by
  induction d with
  | nil => simp [dictInsert, dictGet]
  | cons kv rest ih =>
      by_cases h : kv.1 = k <;>
        simp [dictInsert, dictGet, h, ih]

/-! ### Concrete oracles used by the witness theorems -/

/-- A classifier oracle: raises on package `"p.err"`, answers a tag string
with surrounding whitespace otherwise. -/
def clC : String → String → Except String String :=
  fun _ p => if p = "p.err" then .error "boom" else .ok " 工具,文件管理 "

/-- An embedder oracle over `Nat` coordinates: raises on tag `"fail"`,
answers a one-dimensional vector otherwise. -/
def emC : String → Except String (List Nat) :=
  fun t => if t = "fail" then .error "x" else .ok [t.length]

/-! ### Claim theorems -/

/-- C3: if the remote text-generation call inside the Classifier Client
raises (the `classify` oracle returns an error), `get_app_description`
returns the sentinel `"信息不足"`.  It is a total function of its oracles,
so no exception reaches its caller: classification failure cannot abort
the pipeline. -/
theorem C3_classifier_error_maps_to_sentinel
    (classify : String → String → Except String String) (n p e : String)
    (h : classify n p = .error e) :
    get_app_description classify n p = sentinel := by
  unfold get_app_description
  rw [h]

/-- C3 witness: a concrete always-raising oracle yields the sentinel. -/
theorem C3_classifier_error_maps_to_sentinel_witness :
    get_app_description (fun _ _ => .error "network down") "微信" "com.tencent.mm"
      = sentinel :=
  C3_classifier_error_maps_to_sentinel _ "微信" "com.tencent.mm" "network down" rfl

/-- C10: a remote reply whose text strips to the empty string makes
`get_app_description` return the sentinel rather than an empty tag — the
same value a raised exception produces — and on a cache miss the loop body
then caches the sentinel for the package and skips the application: no
vector, no survivor, no embedder call. -/
theorem C10_blank_reply_treated_as_sentinel {α : Type}
    (classify : String → String → Except String String)
    (embed : String → Except String (List α)) (writeOk : Bool)
    (i : Nat) (a : AppRec) (s : LoopState α) (t : String)
    (hok : classify a.name a.package = .ok t) (htrim : pyStrip t = "")
    (hmiss : dictGet s.cache a.package = none) :
    get_app_description classify a.name a.package = sentinel ∧
    (processApp classify embed writeOk i a s).cache
      = dictInsert s.cache a.package sentinel ∧
    (processApp classify embed writeOk i a s).processed = s.processed ∧
    (processApp classify embed writeOk i a s).vectors = s.vectors ∧
    (processApp classify embed writeOk i a s).embedLog = s.embedLog := by
  have hdesc : get_app_description classify a.name a.package = sentinel := by
    unfold get_app_description
    rw [hok]
    simp [htrim]
  have hstep : processApp classify embed writeOk i a s
      = afterTags embed i a sentinel
          { s with cache := dictInsert s.cache a.package sentinel,
                   file := save_cache writeOk (dictInsert s.cache a.package sentinel) s.file,
                   classifiedLog := s.classifiedLog ++ [(i, a.package)] } := by
    unfold processApp
    rw [hmiss, hdesc]
  rw [hstep, afterTags_sentinel]
  exact ⟨hdesc, rfl, rfl, rfl, rfl⟩

/-- C10 witness: a concrete whitespace-only reply on a fresh cache. -/
theorem C10_blank_reply_treated_as_sentinel_witness :
    get_app_description (fun _ _ => .ok "  \n ") "n" "p" = sentinel ∧
    (processApp (fun _ _ => .ok "  \n ") emC true 0 ⟨"n", "p"⟩
        (initState Nat .missing)).cache = dictInsert [] "p" sentinel ∧
    (processApp (fun _ _ => .ok "  \n ") emC true 0 ⟨"n", "p"⟩
        (initState Nat .missing)).processed = [] ∧
    (processApp (fun _ _ => .ok "  \n ") emC true 0 ⟨"n", "p"⟩
        (initState Nat .missing)).vectors = [] ∧
    (processApp (fun _ _ => .ok "  \n ") emC true 0 ⟨"n", "p"⟩
        (initState Nat .missing)).embedLog = [] :=
  C10_blank_reply_treated_as_sentinel (fun _ _ => .ok "  \n ") emC true 0
    ⟨"n", "p"⟩ (initState Nat .missing) "  \n " rfl (by decide) rfl

/-- C4: `load_cache` is total over its observable file states: a missing
file yields the empty mapping, an unreadable file (caught `IOError`) yields
the empty mapping, an empty file yields the empty mapping, and content on
which `json.loads` raises is caught with a warning and yields the empty
mapping.  Every case returns; no exception reaches the caller. -/
theorem C4_load_cache_total :
    load_cache .missing = [] ∧
    load_cache .readError = [] ∧
    load_cache (.present "") = [] ∧
    ∀ s : String, json_loads s = none → load_cache (.present s) = [] := by
  refine ⟨rfl, rfl, rfl, fun s h => ?_⟩
  unfold load_cache
  by_cases hs : s = "" <;> simp [hs, h]

/-- C4 witness: concrete corrupted content parses to nothing and loads as
the empty mapping. -/
theorem C4_load_cache_total_witness :
    load_cache .missing = [] ∧
    load_cache .readError = [] ∧
    load_cache (.present "") = [] ∧
    json_loads "corrupt ]" = none ∧ load_cache (.present "corrupt ]") = [] :=
  ⟨C4_load_cache_total.1, C4_load_cache_total.2.1, C4_load_cache_total.2.2.1,
    by decide, C4_load_cache_total.2.2.2 "corrupt ]" (by decide)⟩

/-- C8: on a cache miss the loop body inserts the new `(package, tag)`
binding into the in-memory mapping and immediately hands the full mapping
to `save_cache` before the loop moves on: when the write succeeds the file
now holds the serialized updated mapping, and when the write raises the
error is caught inside `save_cache` (the model is total — nothing
propagates), the file is unchanged, the in-memory mapping still holds the
new entry, and the loop proceeds to the next application either way. -/
theorem C8_miss_write_through_and_io_error_recovery {α : Type}
    (classify : String → String → Except String String)
    (embed : String → Except String (List α)) (writeOk : Nat → Bool)
    (rest : List AppRec) (i j : Nat) (a : AppRec) (s : LoopState α)
    (t : String) (c' : TagCache)
    (hmiss : dictGet s.cache a.package = none)
    (ht : t = get_app_description classify a.name a.package)
    (hc : c' = dictInsert s.cache a.package t) :
    (processApp classify embed true i a s).cache = c' ∧
    (processApp classify embed false i a s).cache = c' ∧
    dictGet c' a.package = some t ∧
    (processApp classify embed true i a s).file = .present (json_dump c') ∧
    (processApp classify embed false i a s).file = s.file ∧
    mainLoop classify embed writeOk (a :: rest) j s
      = mainLoop classify embed writeOk rest (j + 1)
          (processApp classify embed (writeOk j) j a s) := by
  subst ht hc
  have hstep : ∀ w : Bool, processApp classify embed w i a s
      = afterTags embed i a (get_app_description classify a.name a.package)
          { s with
              cache := dictInsert s.cache a.package
                (get_app_description classify a.name a.package),
              file := save_cache w
                (dictInsert s.cache a.package
                  (get_app_description classify a.name a.package)) s.file,
              classifiedLog := s.classifiedLog ++ [(i, a.package)] } := by
    intro w
    unfold processApp
    rw [hmiss]
  refine ⟨?_, ?_, dictGet_insert_self _ _ _, ?_, ?_, rfl⟩
  · rw [hstep true, (afterTags_preserves ..).1]
  · rw [hstep false, (afterTags_preserves ..).1]
  · rw [hstep true, (afterTags_preserves ..).2.1]
    rfl
  · rw [hstep false, (afterTags_preserves ..).2.1]
    rfl

/-- C8 witness: a fresh empty cache, one concrete application. -/
theorem C8_miss_write_through_and_io_error_recovery_witness :
    (processApp clC emC true 0 ⟨"n", "p"⟩ (initState Nat .missing)).cache
      = [("p", "工具,文件管理")] ∧
    (processApp clC emC false 0 ⟨"n", "p"⟩ (initState Nat .missing)).cache
      = [("p", "工具,文件管理")] ∧
    dictGet [("p", "工具,文件管理")] "p" = some "工具,文件管理" ∧
    (processApp clC emC true 0 ⟨"n", "p"⟩ (initState Nat .missing)).file
      = .present (json_dump [("p", "工具,文件管理")]) ∧
    (processApp clC emC false 0 ⟨"n", "p"⟩ (initState Nat .missing)).file
      = .missing ∧
    mainLoop clC emC (fun _ => false) [⟨"n", "p"⟩] 0 (initState Nat .missing)
      = mainLoop clC emC (fun _ => false) [] 1
          (processApp clC emC false 0 ⟨"n", "p"⟩ (initState Nat .missing)) :=
  C8_miss_write_through_and_io_error_recovery clC emC (fun _ => false) []
    0 0 ⟨"n", "p"⟩ (initState Nat .missing) "工具,文件管理"
    [("p", "工具,文件管理")] rfl (by decide) rfl

/-- C5: when no `(application, vector)` pair survives the loop, the
pipeline reports the "nothing to cluster" condition and returns; the
Cluster Engine is not invoked — the result is the same for every cluster
oracle — and no `GroupedResult` is built (the result is the
`nothingToCluster` constructor, not `grouped`). -/
theorem C5_empty_vectors_skips_clustering {α : Type}
    (classify : String → String → Except String String)
    (embed : String → Except String (List α)) (writeOk : Nat → Bool)
    (cluster : List (List α) → List Int) (apps : List AppRec)
    (file : CacheFile)
    (hempty : (mainLoop classify embed writeOk apps 0 (initState α file)).vectors = []) :
    runPipeline classify embed writeOk cluster apps file
      = .nothingToCluster (mainLoop classify embed writeOk apps 0 (initState α file)) ∧
    ∀ cluster' : List (List α) → List Int,
      runPipeline classify embed writeOk cluster' apps file
        = runPipeline classify embed writeOk cluster apps file := by
  have h : ∀ c : List (List α) → List Int,
      runPipeline classify embed writeOk c apps file
        = .nothingToCluster (mainLoop classify embed writeOk apps 0 (initState α file)) := by
    intro c
    simp only [runPipeline]
    rw [hempty]
    rfl
  exact ⟨h cluster, fun c' => (h c').trans (h cluster).symm⟩

/-- C5 witness: a single application whose classification raises resolves
to the sentinel, so nothing survives and no clustering happens whatever
the cluster oracle answers. -/
theorem C5_empty_vectors_skips_clustering_witness :
    (mainLoop clC emC (fun _ => true) [⟨"n", "p.err"⟩] 0
        (initState Nat .missing)).vectors = [] ∧
    runPipeline clC emC (fun _ => true) (fun _ => [0]) [⟨"n", "p.err"⟩] .missing
      = .nothingToCluster (mainLoop clC emC (fun _ => true) [⟨"n", "p.err"⟩] 0
          (initState Nat .missing)) ∧
    runPipeline clC emC (fun _ => true) (fun _ => [7]) [⟨"n", "p.err"⟩] .missing
      = runPipeline clC emC (fun _ => true) (fun _ => [0]) [⟨"n", "p.err"⟩] .missing := by
  have h := C5_empty_vectors_skips_clustering clC emC (fun _ => true)
    (fun _ => [0]) [⟨"n", "p.err"⟩] .missing (by decide)
  exact ⟨by decide, h.1, h.2 (fun _ => [7])⟩

/-- C9 counterexample: the claim says every fatal error kind aborts the run
with a non-zero process exit status, but `main` catches each fatal
condition, prints, and returns normally — there is no `sys.exit` — so the
process exit status is 0 even when the remote-service credential is
missing. -/
theorem C9_counterexample_exit_status_zero :
    run_process (α := Nat) none .missing clC emC (fun _ => true)
      (fun _ => []) .missing = (0, .configError) := rfl

/-- C9 amended: every fatal error kind — missing credential
(`ConfigurationError`), missing data source or query failure
(`DataSourceError`/`ExtractionError`), empty extraction, and the
empty-input condition — stops the run at that point with a printed message
and a plain `return`, but the process then terminates normally with exit
status 0 (there is no `sys.exit` and no exception escapes `main`). -/
theorem C9_fatal_errors_stop_run_with_exit_zero {α : Type}
    (apiKey : Option String) (db : DbState)
    (classify : String → String → Except String String)
    (embed : String → Except String (List α)) (writeOk : Nat → Bool)
    (cluster : List (List α) → List Int) (file : CacheFile) :
    (run_process apiKey db classify embed writeOk cluster file).1 = 0 ∧
    (setup_gemini apiKey = .error "missing GOOGLE_API_KEY" →
      main apiKey db classify embed writeOk cluster file = .configError) ∧
    (∀ e, apiKey ≠ none → apiKey ≠ some "" → extract_apps_from_db db = .error e →
      main apiKey db classify embed writeOk cluster file = .dataSourceError e) ∧
    (apiKey ≠ none → apiKey ≠ some "" → extract_apps_from_db db = .ok [] →
      main apiKey db classify embed writeOk cluster file = .noApps) := by
  refine ⟨rfl, ?_, ?_, ?_⟩
  · intro h
    unfold main
    rw [h]
  · intro e h1 h2 h3
    have hk : setup_gemini apiKey = .ok () := by
      unfold setup_gemini
      match apiKey, h1 with
      | some k, _ =>
          simp only []
          rw [if_neg (by intro hk0; exact h2 (by rw [hk0]))]
    unfold main
    rw [hk, h3]
  · intro h1 h2 h3
    have hk : setup_gemini apiKey = .ok () := by
      unfold setup_gemini
      match apiKey, h1 with
      | some k, _ =>
          simp only []
          rw [if_neg (by intro hk0; exact h2 (by rw [hk0]))]
    unfold main
    rw [hk, h3]
    rfl

/-- C9 amended witness: concrete runs hitting each fatal kind, all with
exit status 0. -/
theorem C9_fatal_errors_stop_run_with_exit_zero_witness :
    ((run_process (α := Nat) (some "key") DbState.missing clC emC (fun _ => true)
        (fun _ => []) .missing).1 = 0 ∧
      (setup_gemini (some "key") = .error "missing GOOGLE_API_KEY" →
        main (α := Nat) (some "key") DbState.missing clC emC (fun _ => true)
          (fun _ => []) .missing = .configError) ∧
      (∀ e, some "key" ≠ none → some "key" ≠ some "" →
        extract_apps_from_db DbState.missing = .error e →
        main (α := Nat) (some "key") DbState.missing clC emC (fun _ => true)
          (fun _ => []) .missing = .dataSourceError e) ∧
      (some "key" ≠ none → some "key" ≠ some "" →
        extract_apps_from_db DbState.missing = .ok [] →
        main (α := Nat) (some "key") DbState.missing clC emC (fun _ => true)
          (fun _ => []) .missing = .noApps)) ∧
    main (α := Nat) (some "key") DbState.missing clC emC (fun _ => true)
      (fun _ => []) .missing = .dataSourceError .fileNotFound :=
  have h := C9_fatal_errors_stop_run_with_exit_zero (α := Nat) (some "key")
    DbState.missing clC emC (fun _ => true) (fun _ => []) .missing
  ⟨h, h.2.2.1 .fileNotFound (by decide) (by decide) rfl⟩

/-! ### JSON round trip

`save_cache` followed by `load_cache` recovers the mapping: the parser
inverts the encoder character by character. -/

/-- `Char.ofNat` on a value below the surrogate range keeps that value. -/
theorem char_toNat_ofNat (n : Nat) (h : n < 55296) : (Char.ofNat n).toNat = n := by
  have hv : n.isValidChar := Or.inl h
  unfold Char.ofNat
  rw [dif_pos hv]
  rfl

/-- `Char.ofNat` inverts `Char.toNat`. -/
theorem char_ofNat_toNat (c : Char) : Char.ofNat c.toNat = c := by
  have hv : c.toNat.isValidChar := c.valid
  unfold Char.ofNat
  rw [dif_pos hv]
  exact Char.ext (UInt32.eq_of_toBitVec_eq (BitVec.eq_of_toNat_eq rfl))

/-- `hexVal` inverts `hexDig` on hexadecimal digits. -/
theorem hexVal_hexDig (n : Nat) (h : n < 16) : hexVal (hexDig n) = some n := by
  unfold hexVal hexDig
  by_cases h10 : n < 10
  · rw [if_pos h10, char_toNat_ofNat (48 + n) (by omega),
      if_pos (by omega)]
    congr 1
    omega
  · rw [if_neg h10, char_toNat_ofNat (87 + n) (by omega),
      if_neg (by omega), if_pos (by omega)]
    congr 1
    omega

/-- The parser inverts the escaper on string bodies: decoding the escaped
form of `s` up to the closing quote yields `s` and the input after it. -/
theorem parseStrBody_encBody (s : List Char) :
    ∀ rest, parseStrBody (encBody s ++ '"' :: rest) = some (s, rest) := by
  induction s with
  | nil =>
      intro rest
      simp only [encBody, List.nil_append]
      rw [parseStrBody.eq_def]
      simp only []
      rw [if_pos trivial]
  | cons c cs ih =>
      intro rest
      rw [encBody, List.append_assoc]
      by_cases h1 : c = '"'
      · subst h1
        simp [escChar, parseStrBody, unescape, ih]
      by_cases h2 : c = '\\'
      · subst h2
        simp [escChar, parseStrBody, unescape, ih]
      by_cases h3 : c = '\n'
      · subst h3
        simp [escChar, parseStrBody, unescape, ih]
      by_cases h4 : c = '\t'
      · subst h4
        simp [escChar, parseStrBody, unescape, ih]
      by_cases h5 : c = '\r'
      · subst h5
        simp [escChar, parseStrBody, unescape, ih]
      by_cases h6 : c = Char.ofNat 8
      · subst h6
        simp [escChar, parseStrBody, unescape, ih]
      by_cases h7 : c = Char.ofNat 12
      · subst h7
        simp [escChar, parseStrBody, unescape, ih]
      have hesc : escChar c = if c.toNat < 32 then
          ['\\', 'u', '0', '0', hexDig (c.toNat / 16), hexDig (c.toNat % 16)]
        else [c] := by
        unfold escChar
        rw [if_neg h1, if_neg h2, if_neg h3, if_neg h4, if_neg h5, if_neg h6,
          if_neg h7]
      by_cases h8 : c.toNat < 32
      · rw [hesc, if_pos h8]
        have hhi : c.toNat / 16 < 16 := by omega
        have hlo : c.toNat % 16 < 16 := by omega
        have hv0 : hexVal '0' = some 0 := by decide
        simp only [List.cons_append, List.nil_append]
        rw [parseStrBody.eq_def]
        simp only [hexVal_hexDig _ hhi, hexVal_hexDig _ hlo, hv0]
        rw [if_neg (by decide : ¬ ('\\' : Char) = '"'), if_pos trivial,
          if_pos (by omega :
            4096 * 0 + 256 * 0 + 16 * (c.toNat / 16) + c.toNat % 16 < 55296),
          ih, Option.map_some']
        rw [show 4096 * 0 + 256 * 0 + 16 * (c.toNat / 16) + c.toNat % 16
              = c.toNat from by omega,
          char_ofNat_toNat]
      · rw [hesc, if_neg h8, List.cons_append, List.nil_append]
        rw [parseStrBody.eq_def]
        simp only []
        rw [if_neg h1, if_neg h2, if_neg h8, ih, Option.map_some']

/-- Skipping whitespace drops a leading whitespace character. -/
theorem skipWs_cons_of_ws (c : Char) (h : isJsonWs c = true) (l : List Char) :
    skipWs (c :: l) = skipWs l := by
  simp [skipWs, List.dropWhile_cons, h]

/-- Skipping whitespace stops at a non-whitespace character. -/
theorem skipWs_cons_of_not (c : Char) (h : isJsonWs c = false) (l : List Char) :
    skipWs (c :: l) = c :: l := by
  simp [skipWs, List.dropWhile_cons, h]

/-- `String.mk` undoes `String.data`. -/
theorem string_mk_data (s : String) : String.mk s.data = s := rfl

/-- `parseMember` decodes an encoded `"key": "value"` member. -/
theorem parseMember_enc (k v : String) (rest : List Char) :
    parseMember ('"' :: (encBody k.data ++ '"' :: ':' :: ' ' :: '"'
        :: (encBody v.data ++ '"' :: rest)))
      = some ((k, v), rest) := by
  rw [parseMember.eq_def]
  simp only []
  rw [parseStrBody_encBody k.data
    (':' :: ' ' :: '"' :: (encBody v.data ++ '"' :: rest))]
  simp only []
  rw [skipWs_cons_of_not ':' (by decide)]
  simp only []
  rw [skipWs_cons_of_ws ' ' (by decide), skipWs_cons_of_not '"' (by decide)]
  simp only []
  rw [parseStrBody_encBody v.data rest]

/-- `parseMembers` decodes the `indent=4` entry block produced by
`encEntries`, consuming the closing brace, whenever the fuel covers the
number of entries. -/
theorem parseMembers_encEntries :
    ∀ (d : List (String × String)) (fuel : Nat), d ≠ [] → d.length ≤ fuel →
      parseMembers fuel (skipWs (encEntries d ++ ['\n', '\x7d'])) = some (d, []) := by
  intro d
  induction d with
  | nil =>
      intro fuel h _
      exact absurd rfl h
  | cons kv tl ih =>
      obtain ⟨k, v⟩ := kv
      intro fuel _ hlen
      cases fuel with
      | zero => simp at hlen
      | succ f =>
          cases tl with
          | nil =>
              rw [show encEntries [(k, v)] ++ ['\n', '\x7d']
                  = ' ' :: ' ' :: ' ' :: ' ' :: '"' :: (encBody k.data
                    ++ '"' :: ':' :: ' ' :: '"' :: (encBody v.data
                      ++ '"' :: ['\n', '\x7d'])) from by
                simp [encEntries, encStr]]
              rw [skipWs_cons_of_ws ' ' (by decide), skipWs_cons_of_ws ' ' (by decide),
                skipWs_cons_of_ws ' ' (by decide), skipWs_cons_of_ws ' ' (by decide),
                skipWs_cons_of_not '"' (by decide)]
              rw [parseMembers.eq_def]
              simp only []
              rw [parseMember_enc]
              simp only []
              rw [skipWs_cons_of_ws '\n' (by decide),
                skipWs_cons_of_not '\x7d' (by decide)]
              rfl
          | cons kv2 tl2 =>
              rw [show encEntries ((k, v) :: kv2 :: tl2) ++ ['\n', '\x7d']
                  = ' ' :: ' ' :: ' ' :: ' ' :: '"' :: (encBody k.data
                    ++ '"' :: ':' :: ' ' :: '"' :: (encBody v.data
                      ++ '"' :: ',' :: '\n'
                        :: (encEntries (kv2 :: tl2) ++ ['\n', '\x7d']))) from by
                simp [encEntries, encStr]]
              rw [skipWs_cons_of_ws ' ' (by decide), skipWs_cons_of_ws ' ' (by decide),
                skipWs_cons_of_ws ' ' (by decide), skipWs_cons_of_ws ' ' (by decide),
                skipWs_cons_of_not '"' (by decide)]
              rw [parseMembers.eq_def]
              simp only []
              rw [parseMember_enc]
              simp only []
              rw [skipWs_cons_of_not ',' (by decide)]
              simp only []
              rw [skipWs_cons_of_ws '\n' (by decide)]
              rw [ih f (by simp) (by simp at hlen ⊢; omega)]
              rfl

/-- Inserting a fresh key appends the binding at the end. -/
theorem dictInsert_of_not_mem (d : List (String × String)) (k v : String)
    (h : k ∉ d.map Prod.fst) :
    dictInsert d k v = d ++ [(k, v)] := by
  induction d with
  | nil => rfl
  | cons kv rest ih =>
      obtain ⟨k', v'⟩ := kv
      simp only [List.map_cons, List.mem_cons] at h
      push_neg at h
      simp only [dictInsert, List.cons_append]
      rw [if_neg (fun he => h.1 he.symm), ih h.2]

/-- Rebuilding a dict by repeated insertion from a key-distinct member list
appends those members in order. -/
theorem foldl_dictInsert_eq_append :
    ∀ (d acc : List (String × String)),
      (acc.map Prod.fst ++ d.map Prod.fst).Nodup →
      d.foldl (fun a kv => dictInsert a kv.1 kv.2) acc = acc ++ d := by
  intro d
  induction d with
  | nil =>
      intro acc _
      simp
  | cons kv tl ih =>
      intro acc h
      obtain ⟨k, v⟩ := kv
      have hk : k ∉ acc.map Prod.fst := by
        intro hmem
        have := (List.nodup_append.mp h).2.2
        exact this hmem (by simp)
      have h2 : ((acc ++ [(k, v)]).map Prod.fst ++ tl.map Prod.fst).Nodup := by
        simp only [List.map_append, List.map_cons, List.map_nil] at h ⊢
        simpa [List.append_assoc] using h
      simp only [List.foldl_cons, dictInsert_of_not_mem acc k v hk, ih _ h2,
        List.append_assoc, List.singleton_append]

/-- An entry block is at least as long as its entry list. -/
theorem length_le_encEntries :
    ∀ d : List (String × String), d.length ≤ (encEntries d).length := by
  intro d
  induction d with
  | nil => simp [encEntries]
  | cons kv tl ih =>
      obtain ⟨k, v⟩ := kv
      cases tl with
      | nil => simp [encEntries]
      | cons kv2 tl2 =>
          simp only [encEntries, List.length_append, List.length_cons] at ih ⊢
          omega

/-- Full object-level round trip: parsing the serialized form of a mapping
with pairwise-distinct keys recovers it exactly. -/
theorem json_loads_dump (d : List (String × String))
    (h : (d.map Prod.fst).Nodup) : json_loads (json_dump d) = some d := by
  cases d with
  | nil => decide
  | cons kv tl =>
      obtain ⟨k, v⟩ := kv
      rw [show json_dump ((k, v) :: tl)
          = String.mk ('\x7b' :: '\n' :: (encEntries ((k, v) :: tl)
            ++ ['\n', '\x7d'])) from by
        rw [json_dump, if_neg (by simp)]]
      rw [json_loads]
      simp only []
      rw [skipWs_cons_of_not '\x7b' (by decide)]
      simp only []
      rw [skipWs_cons_of_ws '\n' (by decide)]
      have hstream : ∃ y, skipWs (encEntries ((k, v) :: tl) ++ ['\n', '\x7d'])
          = '"' :: y := by
        cases tl with
        | nil =>
            refine ⟨encBody k.data ++ '"' :: ':' :: ' ' :: '"'
              :: (encBody v.data ++ '"' :: ['\n', '\x7d']), ?_⟩
            rw [show encEntries [(k, v)] ++ ['\n', '\x7d']
                = ' ' :: ' ' :: ' ' :: ' ' :: '"' :: (encBody k.data
                  ++ '"' :: ':' :: ' ' :: '"' :: (encBody v.data
                    ++ '"' :: ['\n', '\x7d'])) from by
              simp [encEntries, encStr]]
            rw [skipWs_cons_of_ws ' ' (by decide), skipWs_cons_of_ws ' ' (by decide),
              skipWs_cons_of_ws ' ' (by decide), skipWs_cons_of_ws ' ' (by decide),
              skipWs_cons_of_not '"' (by decide)]
        | cons kv2 tl2 =>
            refine ⟨encBody k.data ++ '"' :: ':' :: ' ' :: '"'
              :: (encBody v.data ++ '"' :: ',' :: '\n'
                :: (encEntries (kv2 :: tl2) ++ ['\n', '\x7d'])), ?_⟩
            rw [show encEntries ((k, v) :: kv2 :: tl2) ++ ['\n', '\x7d']
                = ' ' :: ' ' :: ' ' :: ' ' :: '"' :: (encBody k.data
                  ++ '"' :: ':' :: ' ' :: '"' :: (encBody v.data
                    ++ '"' :: ',' :: '\n'
                      :: (encEntries (kv2 :: tl2) ++ ['\n', '\x7d']))) from by
              simp [encEntries, encStr]]
            rw [skipWs_cons_of_ws ' ' (by decide), skipWs_cons_of_ws ' ' (by decide),
              skipWs_cons_of_ws ' ' (by decide), skipWs_cons_of_ws ' ' (by decide),
              skipWs_cons_of_not '"' (by decide)]
      obtain ⟨y, hy⟩ := hstream
      rw [hy]
      simp only []
      rw [← hy]
      rw [parseMembers_encEntries ((k, v) :: tl) _ (by simp)
        (by
          have hle := length_le_encEntries ((k, v) :: tl)
          simp only [List.length_cons, List.length_append, List.length_nil]
            at hle ⊢
          omega)]
      simp only []
      rw [show skipWs ([] : List Char) = [] from rfl, if_pos rfl,
        foldl_dictInsert_eq_append ((k, v) :: tl) [] (by simpa using h)]
      simp

/-- C7: round-trip law for the tag cache.  For every mapping (distinct
package keys, as a Python dict guarantees), persisting with `save_cache`
and reading back with `load_cache` yields an equal mapping, and a lookup
after the insert of `put_and_persist (package, tag)` returns exactly that
tag. -/
theorem C7_cache_round_trip (d : TagCache) (p t : String) (file : CacheFile)
    (h : (d.map Prod.fst).Nodup) :
    load_cache (save_cache true d file) = d ∧
    dictGet (dictInsert d p t) p = some t := by
  refine ⟨?_, dictGet_insert_self d p t⟩
  have hne : json_dump d ≠ "" := by
    unfold json_dump
    split
    · decide
    · intro he
      have hdata := congrArg String.data he
      simp at hdata
  show load_cache (.present (json_dump d)) = d
  unfold load_cache
  simp only []
  rw [if_neg hne, json_loads_dump d h]

/-- C7 witness: a concrete two-entry mapping (one value the sentinel)
survives the save/load round trip, and a concrete insert is found. -/
theorem C7_cache_round_trip_witness :
    load_cache (save_cache true
        [("com.tencent.mm", "社交,即时通讯"), ("p2", "信息不足")] .missing)
      = [("com.tencent.mm", "社交,即时通讯"), ("p2", "信息不足")] ∧
    dictGet (dictInsert
        [("com.tencent.mm", "社交,即时通讯"), ("p2", "信息不足")] "p3" "工具") "p3"
      = some "工具" :=
  C7_cache_round_trip
    [("com.tencent.mm", "社交,即时通讯"), ("p2", "信息不足")] "p3" "工具"
    .missing (by decide)

/-! ### Cache-hit discipline (C1) -/

/-- On a cache hit the loop body is just the post-tag steps with the
cached value: no classifier call, no cache write, no save. -/
theorem processApp_hit {α : Type} (classify : String → String → Except String String)
    (embed : String → Except String (List α)) (w : Bool) (i : Nat)
    (a : AppRec) (s : LoopState α) (v : String)
    (h : dictGet s.cache a.package = some v) :
    processApp classify embed w i a s = afterTags embed i a v s := by
  unfold processApp
  rw [h]

/-- On a cache miss the loop body classifies, inserts, saves, and then runs
the post-tag steps. -/
theorem processApp_miss {α : Type} (classify : String → String → Except String String)
    (embed : String → Except String (List α)) (w : Bool) (i : Nat)
    (a : AppRec) (s : LoopState α)
    (h : dictGet s.cache a.package = none) :
    processApp classify embed w i a s
      = afterTags embed i a (get_app_description classify a.name a.package)
          { s with
              cache := dictInsert s.cache a.package
                (get_app_description classify a.name a.package),
              file := save_cache w
                (dictInsert s.cache a.package
                  (get_app_description classify a.name a.package)) s.file,
              classifiedLog := s.classifiedLog ++ [(i, a.package)] } := by
  unfold processApp
  rw [h]

/-- `afterTags` records exactly the tag it was given. -/
theorem afterTags_tagsLog {α : Type} (embed : String → Except String (List α))
    (i : Nat) (a : AppRec) (t : String) (s : LoopState α) :
    (afterTags embed i a t s).tagsLog = s.tagsLog ++ [(i, a.package, t)] := by
  unfold afterTags
  by_cases h : t = sentinel
  · rw [if_pos h, h]
  · rw [if_neg h]
    exact (embedStep_preserves embed i a t
      { s with tagsLog := s.tagsLog ++ [(i, a.package, t)] }).2.2.1

/-- Lookup after insert: the inserted key finds the new value, others are
unchanged. -/
theorem dictGet_insert (d : List (String × String)) (k v p : String) :
    dictGet (dictInsert d k v) p = if k = p then some v else dictGet d p := by
  induction d with
  | nil =>
      simp only [dictInsert, dictGet]
  | cons kv r ih =>
      obtain ⟨k', v'⟩ := kv
      by_cases hk : k' = k
      · subst hk
        by_cases hp : k' = p
        · subst hp
          simp [dictInsert, dictGet]
        · simp [dictInsert, dictGet, hp]
      · by_cases hp : k' = p
        · subst hp
          have hk2 : ¬ k = k' := fun he => hk he.symm
          simp [dictInsert, dictGet, hk, hk2]
        · simp [dictInsert, dictGet, hk, hp, ih]

/-- Loop invariant for the classification log: packages already cached are
never classified, and no package is classified twice. -/
theorem mainLoop_classified_inv {α : Type}
    (classify : String → String → Except String String)
    (embed : String → Except String (List α)) (writeOk : Nat → Bool)
    (c0 : TagCache) :
    ∀ (apps : List AppRec) (i : Nat) (s : LoopState α),
      ((s.classifiedLog.map Prod.snd).Nodup) →
      (∀ pr ∈ s.classifiedLog, dictGet c0 pr.2 = none) →
      (∀ pr ∈ s.classifiedLog, (dictGet s.cache pr.2).isSome = true) →
      (∀ p, (dictGet c0 p).isSome = true → (dictGet s.cache p).isSome = true) →
      (((mainLoop classify embed writeOk apps i s).classifiedLog.map
          Prod.snd).Nodup ∧
        ∀ pr ∈ (mainLoop classify embed writeOk apps i s).classifiedLog,
          dictGet c0 pr.2 = none) := by
  intro apps
  induction apps with
  | nil =>
      intro i s h1 h2 _ _
      exact ⟨h1, h2⟩
  | cons a rest ih =>
      intro i s h1 h2 h3 h4
      rw [mainLoop]
      rcases hcase : dictGet s.cache a.package with _ | v
      · -- cache miss: the package is classified and inserted
        have hlog : (processApp classify embed (writeOk i) i a s).classifiedLog
            = s.classifiedLog ++ [(i, a.package)] := by
          rw [processApp_miss classify embed (writeOk i) i a s hcase,
            (afterTags_preserves ..).2.2]
        have hcache : (processApp classify embed (writeOk i) i a s).cache
            = dictInsert s.cache a.package
                (get_app_description classify a.name a.package) := by
          rw [processApp_miss classify embed (writeOk i) i a s hcase,
            (afterTags_preserves ..).1]
        have hnotmem : a.package ∉ s.classifiedLog.map Prod.snd := by
          intro hmem
          obtain ⟨pr, hpr, hpr2⟩ := List.mem_map.mp hmem
          have := h3 pr hpr
          rw [hpr2, hcase] at this
          exact absurd this (by simp)
        have hc0 : dictGet c0 a.package = none := by
          rcases hc : dictGet c0 a.package with _ | w
          · rfl
          · have := h4 a.package (by rw [hc]; rfl)
            rw [hcase] at this
            exact absurd this (by simp)
        apply ih (i + 1) (processApp classify embed (writeOk i) i a s)
        · rw [hlog]
          simp only [List.map_append, List.map_cons, List.map_nil]
          rw [List.nodup_append]
          exact ⟨h1, List.nodup_singleton _,
            fun x hx hy => by simp at hy; subst hy; exact hnotmem hx⟩
        · rw [hlog]
          intro pr hpr
          rcases List.mem_append.mp hpr with hold | hnew
          · exact h2 pr hold
          · simp at hnew
            rw [hnew]
            exact hc0
        · rw [hlog, hcache]
          intro pr hpr
          rw [dictGet_insert]
          rcases List.mem_append.mp hpr with hold | hnew
          · split
            · rfl
            · exact h3 pr hold
          · simp at hnew
            rw [hnew, if_pos rfl]
            rfl
        · rw [hcache]
          intro p hp
          rw [dictGet_insert]
          split
          · rfl
          · exact h4 p hp
      · -- cache hit: nothing logged, cache untouched
        have hlog : (processApp classify embed (writeOk i) i a s).classifiedLog
            = s.classifiedLog := by
          rw [processApp_hit classify embed (writeOk i) i a s v hcase,
            (afterTags_preserves ..).2.2]
        have hcache : (processApp classify embed (writeOk i) i a s).cache
            = s.cache := by
          rw [processApp_hit classify embed (writeOk i) i a s v hcase,
            (afterTags_preserves ..).1]
        apply ih (i + 1) (processApp classify embed (writeOk i) i a s)
        · rw [hlog]; exact h1
        · rw [hlog]; exact h2
        · rw [hlog, hcache]; exact h3
        · rw [hcache]; exact h4

/-- C1: the cache is authoritative.  (a) On any cache hit — including one
whose cached value is the sentinel `"信息不足"` — the loop body performs no
classifier call, leaves the cache untouched, and uses exactly the cached
tag.  (b) Over a whole run starting from the loaded cache, no package is
ever classified twice, and no package that was already in the loaded cache
is ever classified. -/
theorem C1_cache_hit_is_authoritative {α : Type}
    (classify : String → String → Except String String)
    (embed : String → Except String (List α)) (writeOk : Nat → Bool)
    (apps : List AppRec) (file : CacheFile) :
    (∀ (i : Nat) (a : AppRec) (s : LoopState α) (v : String) (w : Bool),
        dictGet s.cache a.package = some v →
        (processApp classify embed w i a s).classifiedLog = s.classifiedLog ∧
        (processApp classify embed w i a s).cache = s.cache ∧
        (processApp classify embed w i a s).tagsLog
          = s.tagsLog ++ [(i, a.package, v)]) ∧
    ((mainLoop classify embed writeOk apps 0 (initState α file)).classifiedLog.map
        Prod.snd).Nodup ∧
    (∀ pr ∈ (mainLoop classify embed writeOk apps 0 (initState α file)).classifiedLog,
        dictGet (load_cache file) pr.2 = none) := by
  refine ⟨?_, ?_⟩
  · intro i a s v w h
    rw [processApp_hit classify embed w i a s v h]
    exact ⟨(afterTags_preserves ..).2.2, (afterTags_preserves ..).1,
      afterTags_tagsLog ..⟩
  · exact mainLoop_classified_inv classify embed writeOk (load_cache file)
      apps 0 (initState α file) (by simp [initState])
      (by simp [initState]) (by simp [initState]) (fun p hp => hp)

/-- A cache file whose loaded mapping holds a sentinel entry, for the C1
witness. -/
def fileC : CacheFile := .present (json_dump [("p.hit", "信息不足")])

/-- C1 witness: a run over one fresh and one already-cached package; the
hit uses the cached sentinel verbatim and only the fresh package is
classified. -/
theorem C1_cache_hit_is_authoritative_witness :
    ((processApp clC emC true 1 ⟨"h", "p.hit"⟩ (initState Nat fileC)).classifiedLog
        = (initState Nat fileC).classifiedLog ∧
      (processApp clC emC true 1 ⟨"h", "p.hit"⟩ (initState Nat fileC)).cache
        = (initState Nat fileC).cache ∧
      (processApp clC emC true 1 ⟨"h", "p.hit"⟩ (initState Nat fileC)).tagsLog
        = (initState Nat fileC).tagsLog ++ [(1, "p.hit", "信息不足")]) ∧
    ((mainLoop clC emC (fun _ => true) [⟨"a", "p.new"⟩, ⟨"h", "p.hit"⟩] 0
        (initState Nat fileC)).classifiedLog.map Prod.snd).Nodup ∧
    dictGet (load_cache fileC) "p.new" = none := by
  have h := C1_cache_hit_is_authoritative clC emC (fun _ => true)
    [⟨"a", "p.new"⟩, ⟨"h", "p.hit"⟩] fileC
  exact ⟨h.1 1 ⟨"h", "p.hit"⟩ (initState Nat fileC) "信息不足" true (by decide),
    h.2.1, h.2.2 (0, "p.new") (by decide)⟩

/-! ### Sentinel exclusion (C2) -/

/-- Any embed-log entry after `afterTags` is an old one or a non-sentinel
tag: the embedder is only reached on the non-sentinel branch. -/
theorem afterTags_embedLog_sub {α : Type} (embed : String → Except String (List α))
    (i : Nat) (a : AppRec) (t : String) (s : LoopState α) :
    ∀ pr ∈ (afterTags embed i a t s).embedLog,
      pr ∈ s.embedLog ∨ (pr = (i, t) ∧ t ≠ sentinel) := by
  intro pr hpr
  unfold afterTags at hpr
  by_cases h : t = sentinel
  · rw [if_pos h] at hpr
    exact Or.inl hpr
  · rw [if_neg h] at hpr
    unfold embedStep at hpr
    rcases hemb : get_embedding embed t with _ | v
    · rw [hemb] at hpr
      simp at hpr
      rcases hpr with hold | hnew
      · exact Or.inl hold
      · exact Or.inr ⟨by rw [hnew], h⟩
    · rw [hemb] at hpr
      by_cases hv : v.isEmpty <;> simp [hv] at hpr <;>
        first
          | (rcases hpr with hold | hnew
             · exact Or.inl hold
             · exact Or.inr ⟨by rw [hnew], h⟩)

/-- Any surviving application after `afterTags` is an old one or carries a
non-sentinel tag. -/
theorem afterTags_processed_sub {α : Type} (embed : String → Except String (List α))
    (i : Nat) (a : AppRec) (t : String) (s : LoopState α) :
    ∀ pa ∈ (afterTags embed i a t s).processed,
      pa ∈ s.processed ∨ (pa = (a, t) ∧ t ≠ sentinel) := by
  intro pa hpa
  unfold afterTags at hpa
  by_cases h : t = sentinel
  · rw [if_pos h] at hpa
    exact Or.inl hpa
  · rw [if_neg h] at hpa
    unfold embedStep at hpa
    rcases hemb : get_embedding embed t with _ | v
    · rw [hemb] at hpa
      exact Or.inl hpa
    · rw [hemb] at hpa
      by_cases hv : v.isEmpty
      · simp only [hv, if_pos rfl] at hpa
        exact Or.inl hpa
      · simp only [hv] at hpa
        simp at hpa
        rcases hpa with hold | hnew
        · exact Or.inl hold
        · exact Or.inr ⟨hnew, h⟩

/-- One loop iteration only ever adds non-sentinel entries to the embed log
and the survivor list. -/
theorem processApp_no_sentinel_additions {α : Type}
    (classify : String → String → Except String String)
    (embed : String → Except String (List α)) (w : Bool) (i : Nat)
    (a : AppRec) (s : LoopState α) :
    (∀ pr ∈ (processApp classify embed w i a s).embedLog,
        pr ∈ s.embedLog ∨ pr.2 ≠ sentinel) ∧
    (∀ pa ∈ (processApp classify embed w i a s).processed,
        pa ∈ s.processed ∨ pa.2 ≠ sentinel) := by
  rcases hcase : dictGet s.cache a.package with _ | v
  · rw [processApp_miss classify embed w i a s hcase]
    constructor
    · intro pr hpr
      rcases afterTags_embedLog_sub embed i a _ _ pr hpr with hold | hnew
      · exact Or.inl hold
      · rw [hnew.1]
        exact Or.inr hnew.2
    · intro pa hpa
      rcases afterTags_processed_sub embed i a _ _ pa hpa with hold | hnew
      · exact Or.inl hold
      · rw [hnew.1]
        exact Or.inr hnew.2
  · rw [processApp_hit classify embed w i a s v hcase]
    constructor
    · intro pr hpr
      rcases afterTags_embedLog_sub embed i a _ _ pr hpr with hold | hnew
      · exact Or.inl hold
      · rw [hnew.1]
        exact Or.inr hnew.2
    · intro pa hpa
      rcases afterTags_processed_sub embed i a _ _ pa hpa with hold | hnew
      · exact Or.inl hold
      · rw [hnew.1]
        exact Or.inr hnew.2

/-- Loop invariant: the embed log and the survivor list never hold the
sentinel. -/
theorem mainLoop_no_sentinel {α : Type}
    (classify : String → String → Except String String)
    (embed : String → Except String (List α)) (writeOk : Nat → Bool) :
    ∀ (apps : List AppRec) (i : Nat) (s : LoopState α),
      (∀ pr ∈ s.embedLog, pr.2 ≠ sentinel) →
      (∀ pa ∈ s.processed, pa.2 ≠ sentinel) →
      (∀ pr ∈ (mainLoop classify embed writeOk apps i s).embedLog,
          pr.2 ≠ sentinel) ∧
      (∀ pa ∈ (mainLoop classify embed writeOk apps i s).processed,
          pa.2 ≠ sentinel) := by
  intro apps
  induction apps with
  | nil =>
      intro i s h1 h2
      exact ⟨h1, h2⟩
  | cons a rest ih =>
      intro i s h1 h2
      rw [mainLoop]
      apply ih (i + 1) (processApp classify embed (writeOk i) i a s)
      · intro pr hpr
        rcases (processApp_no_sentinel_additions classify embed
            (writeOk i) i a s).1 pr hpr with hold | hnew
        · exact h1 pr hold
        · exact hnew
      · intro pa hpa
        rcases (processApp_no_sentinel_additions classify embed
            (writeOk i) i a s).2 pa hpa with hold | hnew
        · exact h2 pa hold
        · exact hnew

/-- Membership after `addToGroup`: every listed name was already listed or
is the one just added. -/
theorem addToGroup_names (gs : List (String × List String)) (g nm : String) :
    ∀ e ∈ addToGroup gs g nm, ∀ n ∈ e.2,
      (∃ e' ∈ gs, n ∈ e'.2) ∨ n = nm := by
  induction gs with
  | nil =>
      intro e he n hn
      simp [addToGroup] at he
      rw [he] at hn
      simp at hn
      exact Or.inr hn
  | cons kv rest ih =>
      intro e he n hn
      obtain ⟨k, v⟩ := kv
      unfold addToGroup at he
      by_cases hk : k = g
      · rw [if_pos hk] at he
        rcases List.mem_cons.mp he with hhead | htail
        · rw [hhead] at hn
          rcases List.mem_append.mp hn with hn1 | hn2
          · exact Or.inl ⟨(k, v), by simp, hn1⟩
          · simp at hn2
            exact Or.inr hn2
        · exact Or.inl ⟨e, by simp [htail], hn⟩
      · rw [if_neg hk] at he
        rcases List.mem_cons.mp he with hhead | htail
        · rw [hhead] at hn
          exact Or.inl ⟨(k, v), by simp, hn⟩
        · rcases ih e htail n hn with ⟨e', he', hn'⟩ | heq
          · exact Or.inl ⟨e', by simp [he'], hn'⟩
          · exact Or.inr heq

/-- Every name in a built group belongs to a surviving application. -/
theorem build_groups_names (clusters : List Int)
    (processed : List (AppRec × String)) :
    ∀ g ∈ build_groups clusters processed, ∀ n ∈ g.2,
      ∃ pa ∈ processed, pa.1.name = n := by
  have haux : ∀ (l : List (Nat × (AppRec × String)))
      (gs : List (String × List String)),
      (∀ g ∈ gs, ∀ n ∈ g.2, ∃ pa ∈ processed, pa.1.name = n) →
      (∀ p ∈ l, p.2 ∈ processed) →
      ∀ g ∈ l.foldl (fun gs p =>
          addToGroup gs (groupName (clusters.getD p.1 (-1))) p.2.1.name) gs,
        ∀ n ∈ g.2, ∃ pa ∈ processed, pa.1.name = n := by
    intro l
    induction l with
    | nil =>
        intro gs hgs _ g hg n hn
        exact hgs g hg n hn
    | cons p rest ih =>
        intro gs hgs hl g hg n hn
        rw [List.foldl_cons] at hg
        apply ih _ _ _ g hg n hn
        · intro g' hg' n' hn'
          rcases addToGroup_names gs _ _ g' hg' n' hn' with ⟨e', he', hn''⟩ | heq
          · exact hgs e' he' n' hn''
          · exact ⟨p.2, hl p (by simp), by rw [heq]⟩
        · intro q hq
          exact hl q (by simp [hq])
  intro g hg n hn
  apply haux processed.enum [] (by simp) _ g hg n hn
  intro p hp
  obtain ⟨h1, h2, h3⟩ := List.mem_enumFrom hp
  rw [h3]
  exact List.getElem_mem _

/-- C2: an application whose resolved tag is the sentinel `"信息不足"` —
whether it came from the cache or from a fresh classification — is skipped
entirely: its loop iteration adds nothing to the embed log, the survivor
list or the vector list; over a whole run the embedder is never called
with the sentinel and no surviving application carries it; and every name
in every final group belongs to a surviving (hence non-sentinel)
application. -/
theorem C2_sentinel_contributes_nothing {α : Type}
    (classify : String → String → Except String String)
    (embed : String → Except String (List α)) (writeOk : Nat → Bool)
    (cluster : List (List α) → List Int) (apps : List AppRec)
    (file : CacheFile) :
    (∀ (i : Nat) (a : AppRec) (s : LoopState α) (w : Bool),
        (dictGet s.cache a.package = some sentinel ∨
          (dictGet s.cache a.package = none ∧
            get_app_description classify a.name a.package = sentinel)) →
        (processApp classify embed w i a s).embedLog = s.embedLog ∧
        (processApp classify embed w i a s).processed = s.processed ∧
        (processApp classify embed w i a s).vectors = s.vectors) ∧
    (∀ pr ∈ (mainLoop classify embed writeOk apps 0 (initState α file)).embedLog,
        pr.2 ≠ sentinel) ∧
    (∀ pa ∈ (mainLoop classify embed writeOk apps 0 (initState α file)).processed,
        pa.2 ≠ sentinel) ∧
    (∀ g ∈ build_groups
        (cluster (mainLoop classify embed writeOk apps 0 (initState α file)).vectors)
        (mainLoop classify embed writeOk apps 0 (initState α file)).processed,
      ∀ n ∈ g.2,
        ∃ pa ∈ (mainLoop classify embed writeOk apps 0 (initState α file)).processed,
          pa.1.name = n ∧ pa.2 ≠ sentinel) := by
  have hloop := mainLoop_no_sentinel classify embed writeOk apps 0
    (initState α file) (by simp [initState]) (by simp [initState])
  refine ⟨?_, hloop.1, hloop.2, ?_⟩
  · intro i a s w hcase
    rcases hcase with hhit | ⟨hmiss, hdesc⟩
    · rw [processApp_hit classify embed w i a s sentinel hhit,
        afterTags_sentinel]
      exact ⟨rfl, rfl, rfl⟩
    · rw [processApp_miss classify embed w i a s hmiss, hdesc,
        afterTags_sentinel]
      exact ⟨rfl, rfl, rfl⟩
  · intro g hg n hn
    obtain ⟨pa, hpa, hname⟩ := build_groups_names _ _ g hg n hn
    exact ⟨pa, hpa, hname, hloop.2 pa hpa⟩

/-- C2 witness: one application classifying to the sentinel and one
surviving; the sentinel one adds nothing anywhere, and the only group
holds the survivor's name. -/
theorem C2_sentinel_contributes_nothing_witness :
    ((processApp clC emC true 0 ⟨"e", "p.err"⟩ (initState Nat .missing)).embedLog
        = (initState Nat .missing).embedLog ∧
      (processApp clC emC true 0 ⟨"e", "p.err"⟩ (initState Nat .missing)).processed
        = (initState Nat .missing).processed ∧
      (processApp clC emC true 0 ⟨"e", "p.err"⟩ (initState Nat .missing)).vectors
        = (initState Nat .missing).vectors) ∧
    (1, "工具,文件管理").2 ≠ sentinel ∧
    ((⟨"b", "p.b"⟩ : AppRec), "工具,文件管理").2 ≠ sentinel ∧
    (∃ pa ∈ (mainLoop clC emC (fun _ => true)
        [⟨"e", "p.err"⟩, ⟨"b", "p.b"⟩] 0 (initState Nat .missing)).processed,
      pa.1.name = "b" ∧ pa.2 ≠ sentinel) := by
  have h := C2_sentinel_contributes_nothing clC emC (fun _ => true)
    (fun _ => [0]) [⟨"e", "p.err"⟩, ⟨"b", "p.b"⟩] CacheFile.missing
  exact ⟨h.1 0 ⟨"e", "p.err"⟩ (initState Nat .missing) true
      (Or.inr ⟨rfl, by decide⟩),
    h.2.1 (1, "工具,文件管理") (by decide),
    h.2.2.1 (⟨"b", "p.b"⟩, "工具,文件管理") (by decide),
    h.2.2.2 ("分组 0", ["b"]) (by decide) "b" (by decide)⟩

/-! ### Extractor regex (C6) -/

/-- The greedy `[^/]+` run over a slash-free block stops exactly at the
terminating slash. -/
theorem takeWhile_slashfree (t : List Char) (h : ∀ c ∈ t, c ≠ '/') :
    ∀ post : List Char,
      (t ++ '/' :: post).takeWhile (fun c => c ≠ '/') = t := by
  induction t with
  | nil =>
      intro post
      simp [List.takeWhile_cons]
  | cons c ts ih =>
      intro post
      have hc : c ≠ '/' := h c (by simp)
      simp only [List.cons_append, List.takeWhile_cons, decide_eq_true_eq]
      rw [if_pos hc, ih (fun d hd => h d (by simp [hd])) post]

/-- At the marker itself, the candidate-match attempt captures exactly the
slash-free block before the next `/`. -/
theorem tryComponentAt_marker (t post : List Char) (ht : t ≠ [])
    (hslash : ∀ c ∈ t, c ≠ '/') :
    tryComponentAt (componentMarker ++ (t ++ '/' :: post)) = some t := by
  unfold tryComponentAt
  rw [if_pos (List.isPrefixOf_iff_prefix.mpr (List.prefix_append _ _))]
  simp only [List.drop_left, takeWhile_slashfree t hslash post]
  rw [if_pos ⟨ht, by simp⟩]

/-- A position where the marker is not a prefix cannot start a match. -/
theorem tryComponentAt_none (cs : List Char)
    (h : ¬ componentMarker <+: cs) : tryComponentAt cs = none := by
  unfold tryComponentAt
  rw [if_neg (fun hb => h (List.isPrefixOf_iff_prefix.mp hb))]

/-- Unfolding of the left-to-right scan on a non-empty input. -/
theorem findComponent_cons (c : Char) (rest : List Char) :
    findComponent (c :: rest)
      = match tryComponentAt (c :: rest) with
        | some t => some t
        | none => findComponent rest := rfl

/-- `re.search(r'component=([^/]+)/', s)`: when the first occurrence of
`component=` is followed by a non-empty slash-free block and then a `/`,
the search captures exactly that block. -/
theorem findComponent_spec :
    ∀ (pre t post : List Char),
      (∀ n, n < pre.length →
        ¬ componentMarker <+: ((pre ++ (componentMarker ++ (t ++ '/' :: post))).drop n)) →
      t ≠ [] → (∀ c ∈ t, c ≠ '/') →
      findComponent (pre ++ (componentMarker ++ (t ++ '/' :: post))) = some t := by
  intro pre
  induction pre with
  | nil =>
      intro t post _ ht hslash
      rw [List.nil_append,
        show componentMarker ++ (t ++ '/' :: post)
          = 'c' :: ("omponent=".data ++ (t ++ '/' :: post)) from rfl,
        findComponent_cons,
        show 'c' :: ("omponent=".data ++ (t ++ '/' :: post))
          = componentMarker ++ (t ++ '/' :: post) from rfl,
        tryComponentAt_marker t post ht hslash]
  | cons c pre' ih =>
      intro t post hfirst ht hslash
      rw [List.cons_append, findComponent_cons,
        tryComponentAt_none _ (by
          have := hfirst 0 (by simp)
          simpa using this)]
      exact ih t post
        (fun n hn => by
          have := hfirst (n + 1) (by simp; omega)
          simpa using this)
        ht hslash

/-- A row whose intent holds a well-formed first `component=X/` marker
contributes the record `(title, X)`. -/
theorem extractRow_good (title : String) (s : String) (pre t post : List Char)
    (hs : s.data = pre ++ (componentMarker ++ (t ++ '/' :: post)))
    (hfirst : ∀ n, n < pre.length →
      ¬ componentMarker <+: ((pre ++ (componentMarker ++ (t ++ '/' :: post))).drop n))
    (ht : t ≠ []) (hslash : ∀ c ∈ t, c ≠ '/') :
    extractRow (title, some s) = some ⟨title, String.mk t⟩ := by
  have h10 : componentMarker.length = 10 := rfl
  have hne : s ≠ "" := by
    intro he
    rw [he] at hs
    have hlen := congrArg List.length hs
    rw [show ("" : String).data = [] from rfl] at hlen
    simp [List.length_append, h10] at hlen
    omega
  have hcontains : containsComponent s = true := by
    unfold containsComponent
    rw [decide_eq_true_eq]
    apply List.ne_nil_of_mem
      (a := componentMarker ++ (t ++ '/' :: post))
    apply List.mem_filter.mpr
    refine ⟨(List.mem_tails _ _).mpr ⟨pre, hs.symm⟩, ?_⟩
    exact List.isPrefixOf_iff_prefix.mpr (List.prefix_append _ _)
  unfold extractRow
  simp only []
  rw [if_neg hne, if_neg (by simp [hcontains]), hs,
    findComponent_spec pre t post hfirst ht hslash]

/-- A row with a NULL, empty, or marker-free intent contributes nothing. -/
theorem extractRow_skipped (r : String × Option String)
    (hr : r.2 = none ∨ r.2 = some "" ∨
      ∃ s', r.2 = some s' ∧ containsComponent s' = false) :
    extractRow r = none := by
  obtain ⟨t', i'⟩ := r
  unfold extractRow
  rcases hr with h | h | ⟨s', hs', hc⟩
  · simp only at h
    rw [h]
  · simp only at h
    rw [h]
    simp
  · simp only at hs'
    rw [hs']
    simp only []
    by_cases hse : s' = ""
    · rw [if_pos hse]
    · rw [if_neg hse, if_pos (by simp [hc])]

/-- C6: for every database row whose intent descriptor's first
`component=` marker is followed by a non-empty `/`-free block `X` and then
a `/`, the Extractor includes a record whose package identifier is exactly
`X`; and rows whose intent is NULL or empty or lacks `component=` are
silently excluded from the output. -/
theorem C6_extractor_captures_package (rows : List (String × Option String))
    (title : String) (s : String) (pre t post : List Char)
    (hmem : (title, some s) ∈ rows)
    (hs : s.data = pre ++ (componentMarker ++ (t ++ '/' :: post)))
    (hfirst : ∀ n, n < pre.length →
      ¬ componentMarker <+: ((pre ++ (componentMarker ++ (t ++ '/' :: post))).drop n))
    (ht : t ≠ []) (hslash : ∀ c ∈ t, c ≠ '/') :
    (∃ apps, extract_apps_from_db (.table rows) = .ok apps ∧
      (⟨title, String.mk t⟩ : AppRec) ∈ apps) ∧
    (∀ (rows₁ rows₂ : List (String × Option String)) (r : String × Option String),
      (r.2 = none ∨ r.2 = some "" ∨
        ∃ s', r.2 = some s' ∧ containsComponent s' = false) →
      extract_apps_from_db (.table (rows₁ ++ r :: rows₂))
        = extract_apps_from_db (.table (rows₁ ++ rows₂))) := by
  constructor
  · exact ⟨rows.filterMap extractRow, rfl,
      List.mem_filterMap.mpr ⟨(title, some s), hmem,
        extractRow_good title s pre t post hs hfirst ht hslash⟩⟩
  · intro rows₁ rows₂ r hr
    simp [extract_apps_from_db, List.filterMap_append, List.filterMap_cons,
      extractRow_skipped r hr]

/-- C6 witness: a concrete launcher row; the identifier between
`component=` and the next `/` is captured, and a NULL-intent row is
dropped without changing the rest. -/
theorem C6_extractor_captures_package_witness :
    (∃ apps, extract_apps_from_db (.table
        [("小米商城", some "#Intent;component=com.xiaomi.shop/.Main;end"),
          ("x", none)]) = .ok apps ∧
      (⟨"小米商城", "com.xiaomi.shop"⟩ : AppRec) ∈ apps) ∧
    extract_apps_from_db (.table
        ([("小米商城", some "#Intent;component=com.xiaomi.shop/.Main;end")]
          ++ ("x", none) :: []))
      = extract_apps_from_db (.table
        ([("小米商城", some "#Intent;component=com.xiaomi.shop/.Main;end")]
          ++ [])) := by
  have h := C6_extractor_captures_package
    [("小米商城", some "#Intent;component=com.xiaomi.shop/.Main;end"), ("x", none)]
    "小米商城" "#Intent;component=com.xiaomi.shop/.Main;end"
    "#Intent;".data "com.xiaomi.shop".data ".Main;end".data
    (by simp) (by decide) (by decide) (by decide) (by decide)
  exact ⟨h.1, h.2 [("小米商城", some "#Intent;component=com.xiaomi.shop/.Main;end")]
    [] ("x", none) (Or.inl rfl)⟩

end IconOrganizer
